import Mathlib

/-!
Verification development for the HandsOn-RecSys2020 adversarial-training
notebook (src/main.ipynb).

The notebook defines a BPR-MF recommender as a TensorFlow 2 model class
`BPRMF` with embedding matrices `embedding_P`, `embedding_Q`, a constant
all-ones column `h`, perturbation matrices `delta_P`, `delta_Q`, and an
Adagrad optimizer.  We embed the model state shallowly: matrices are lists
of rows of real numbers, the hyperparameters are fields of the state, and
each method of the class becomes a state-passing function.

External pieces and how they are handled:
* The dataset shuffling (`self.data.shuffle(...)`) is a randomized external
  call; the batches it yields are taken as explicit arguments of the
  training functions, exactly where the source reads them.
* The automatic differentiation (`tf.GradientTape`) and the Adagrad update
  (`tf.keras.optimizers.Adagrad`) are library calls with documented
  mathematical semantics; they are embedded by their formulas:
  the analytic gradient of the loss expression that the source builds
  (including the gradient gating of `tf.clip_by_value`), and the Adagrad
  update rule `accum += g * g; var -= lr * g / (sqrt(accum) + eps)` with
  keras defaults (initial accumulator value 0.1, eps = 1e-7).
* Floating point numbers are idealized as real numbers.
-/

namespace RecSys

/-- A vector: one row of a matrix. -/
abbrev Vec := List ℝ

/-- A matrix as a list of rows. -/
abbrev Mat := List Vec

/-- Dot product of two vectors (junk-truncating on ragged input, as all
operations here; the tensor library would raise instead, see the
error-propagation model at the end of this file). -/
def dot (v w : Vec) : ℝ := (List.zipWith (· * ·) v w).sum

/-- Elementwise product of two vectors (`*` on tensors). -/
def hadamard (v w : Vec) : Vec := List.zipWith (· * ·) v w

/-- Elementwise sum of two vectors. -/
def vecAdd (v w : Vec) : Vec := List.zipWith (· + ·) v w

/-- Elementwise matrix sum (`+` on tensors, e.g. `embedding_P + delta_P`). -/
def matAdd (A B : Mat) : Mat := List.zipWith vecAdd A B

/-- Scalar multiple of a matrix (`tensor * epsilon`). -/
def matScale (c : ℝ) (A : Mat) : Mat := A.map (fun r => r.map (fun x => c * x))

/-- `tf.zeros(shape=[r, c])`. -/
def zerosMat (r c : Nat) : Mat := List.replicate r (List.replicate c 0)

/-- Constant matrix, used for the optimizer's slot initialization. -/
def constMat (r c : Nat) (v : ℝ) : Mat := List.replicate r (List.replicate c v)

/-- Number of columns, read off the first row. -/
def numCols (B : Mat) : Nat := (B.headD []).length

/-- Column `j` of a matrix. -/
def colV (B : Mat) (j : Nat) : Vec := B.map (fun row => row.getD j 0)

/-- `tf.matmul`: entry `(i, j)` is the dot product of row `i` of `A` with
column `j` of `B`. -/
def matmul (A B : Mat) : Mat :=
  A.map (fun r => (List.range (numCols B)).map (fun j => dot r (colV B j)))

/-- `tf.transpose` of a rectangular matrix. -/
def matTranspose (B : Mat) : Mat :=
  (List.range (numCols B)).map (fun j => colV B j)

/-- Entry `(i, j)` of a matrix, 0 out of range. -/
def entry (A : Mat) (i j : Nat) : ℝ := (A.getD i []).getD j 0

/-- `tf.reduce_sum(..., 1)` over the looked-up rows of one example
(the notebook's id lists are singletons, so this is normally just the row;
the empty-list case is junk that the notebook never produces). -/
def sumRows : List Vec → Vec
  | [] => []
  | [v] => v
  | v :: vs => vecAdd v (sumRows vs)

/-- `tf.clip_by_value` on a scalar. -/
def clipVal (x lo hi : ℝ) : ℝ := min (max x lo) hi

/-- `tf.clip_by_value` elementwise on a matrix. -/
def matClip (A : Mat) (lo hi : ℝ) : Mat :=
  A.map (fun r => r.map (fun x => clipVal x lo hi))

/-- Elementwise matrix difference (`output_pos - output_neg`). -/
def matSub (A B : Mat) : Mat :=
  List.zipWith (fun v w => List.zipWith (· - ·) v w) A B

/-- `tf.nn.softplus`. -/
noncomputable def softplus (z : ℝ) : ℝ := Real.log (1 + Real.exp z)

/-- The logistic sigmoid, the derivative of `softplus`. -/
noncomputable def sigmoid (z : ℝ) : ℝ := 1 / (1 + Real.exp (-z))

/-- The gradient gate of `tf.clip_by_value`: 1 inside the clipping range,
0 outside (TensorFlow's documented gradient of the clip). -/
noncomputable def clipGate (x lo hi : ℝ) : ℝ := if lo ≤ x ∧ x ≤ hi then 1 else 0

/-- Sum of squares of a vector. -/
def sumSq (v : Vec) : ℝ := (v.map (fun x => x * x)).sum

/-- The epsilon of `tf.nn.l2_normalize` (its documented default 1e-12). -/
noncomputable def l2eps : ℝ := 1 / 10 ^ 12

/-- `tf.nn.l2_normalize(v) = v * rsqrt(max(sum(v^2), 1e-12))` on one row. -/
noncomputable def l2normalizeRow (v : Vec) : Vec :=
  v.map (fun x => x / Real.sqrt (max (sumSq v) l2eps))

/-- `tf.nn.l2_normalize(A, 1)`: row-wise L2 normalization. -/
noncomputable def l2normalizeRows (A : Mat) : Mat := A.map l2normalizeRow

/-- Lower clipping bound used in the loss (`-80.0` in the source). -/
noncomputable def clipLo : ℝ := -80

/-- Upper clipping bound used in the loss (`1e8` in the source). -/
noncomputable def clipHi : ℝ := 10 ^ 8

/-- Keras Adagrad default `initial_accumulator_value = 0.1`. -/
noncomputable def adagradInit : ℝ := 1 / 10

/-- Keras Adagrad default `epsilon = 1e-7`. -/
noncomputable def adagradEps : ℝ := 1 / 10 ^ 7

/-- The state of the notebook's `BPRMF` model object: the fields set by
`__init__` (hyperparameters and the two output paths stored by the
`RecommenderModel` base constructor), the parameters and the perturbations,
plus the Adagrad accumulator slots of the optimizer. -/
structure BPRMF where
  num_users : Nat
  num_items : Nat
  embedding_size : Nat
  learning_rate : ℝ
  reg : ℝ
  epochs : Nat
  batch_size : Nat
  path_output_rec_result : String
  path_output_rec_weight : String
  embedding_P : Mat
  embedding_Q : Mat
  h : Mat
  delta_P : Mat
  delta_Q : Mat
  accum_P : Mat
  accum_Q : Mat

/-- `initialize_perturbations`: reset `delta_P` and `delta_Q` to zero
matrices of the embedding shapes. -/
def initialize_perturbations (s : BPRMF) : BPRMF :=
  { s with
    delta_P := zerosMat s.num_users s.embedding_size
    delta_Q := zerosMat s.num_items s.embedding_size }

/-- The `BPRMF.__init__` constructor.  Modelled from the spec for the part
outside src/: the `RecommenderModel` base constructor only stores the two
output directory paths (spec: "a couple of output directory paths (unused
in the shown flow)").  `P0` and `Q0` stand for the truncated-normal random
draws of `initialize_model_parameters`, whose shapes the tensor library
fixes to `[num_users, 64]` and `[num_items, 64]`. -/
noncomputable def mkBPRMF (num_users num_items : Nat) (P0 Q0 : Mat)
    (resPath wPath : String) : BPRMF :=
  { num_users := num_users
    num_items := num_items
    embedding_size := 64
    learning_rate := 1 / 20
    reg := 0
    epochs := 5
    batch_size := 512
    path_output_rec_result := resPath
    path_output_rec_weight := wPath
    embedding_P := P0
    embedding_Q := Q0
    h := List.replicate 64 [1]
    delta_P := zerosMat num_users 64
    delta_Q := zerosMat num_items 64
    accum_P := constMat num_users 64 adagradInit
    accum_Q := constMat num_items 64 adagradInit }

/-- `tf.nn.embedding_lookup` on one example's id list followed by
`tf.reduce_sum(..., 1)`. -/
def lookupRows (M : Mat) (ids : List Nat) : Vec :=
  sumRows (ids.map (fun i => M.getD i []))

/-- `get_inference`: prediction scores for the passed user and item id
batches, together with the summed user and item embedding rows.  Each batch
element is an id list (shape `(b, 1)` in the notebook, so a singleton). -/
def get_inference (s : BPRMF) (user_input item_input_pos : List (List Nat)) :
    Mat × Mat × Mat :=
  let p := user_input.map (lookupRows (matAdd s.embedding_P s.delta_P))
  let q := item_input_pos.map (lookupRows (matAdd s.embedding_Q s.delta_Q))
  (matmul (List.zipWith hadamard p q) s.h, p, q)

/-- `get_full_inference`: the full perturbed score matrix
`(embedding_P + delta_P) (embedding_Q + delta_Q)^T`. -/
def get_full_inference (s : BPRMF) : Mat :=
  matmul (matAdd s.embedding_P s.delta_P)
    (matTranspose (matAdd s.embedding_Q s.delta_Q))

/-- One batch of the dataset: per example a user id list, a positive item
id list and a negative item id list (the three parallel arrays the
source's `batches` tuple holds at one batch index). -/
structure Batch where
  users : List (List Nat)
  pos : List (List Nat)
  neg : List (List Nat)

/-- The clipped score difference `result = clip(output_pos - output_neg)`
of one batch (a `(b, 1)` matrix). -/
noncomputable def batchResult (s : BPRMF) (b : Batch) : Mat :=
  matClip (matSub (get_inference s b.users b.pos).1
      (get_inference s b.users b.neg).1) clipLo clipHi

/-- `self.loss = tf.reduce_sum(tf.nn.softplus(-self.result))` of one batch:
the BPR part of the loss. -/
noncomputable def batchLoss (s : BPRMF) (b : Batch) : ℝ :=
  ((batchResult s b).map (fun row => (row.map (fun x => softplus (-x))).sum)).sum

/-- The summed perturbed user embedding row of one example. -/
def pVec (s : BPRMF) (uids : List Nat) : Vec :=
  lookupRows (matAdd s.embedding_P s.delta_P) uids

/-- The summed perturbed item embedding row of one example. -/
def qVec (s : BPRMF) (iids : List Nat) : Vec :=
  lookupRows (matAdd s.embedding_Q s.delta_Q) iids

/-- The column behind `h` (all ones after construction). -/
def hCol (s : BPRMF) : Vec := colV s.h 0

/-- The examples of a batch as (user ids, positive ids, negative ids). -/
def exList (b : Batch) : List (List Nat × List Nat × List Nat) :=
  b.users.zip (b.pos.zip b.neg)

/-- The score of one example against one item id list, as `get_inference`
computes it: `(p * q) @ h`. -/
def exScore (s : BPRMF) (uids iids : List Nat) : ℝ :=
  dot (hadamard (pVec s uids) (qVec s iids)) (hCol s)

/-- The raw score difference of one example (before clipping). -/
def exX (s : BPRMF) (e : List Nat × List Nat × List Nat) : ℝ :=
  exScore s e.1 e.2.1 - exScore s e.1 e.2.2

/-- The derivative of `softplus(-clip(x))` at one example's `x`:
`-sigmoid(-result)` gated by the clip range. -/
noncomputable def exC (s : BPRMF) (e : List Nat × List Nat × List Nat) : ℝ :=
  -(sigmoid (-(clipVal (exX s e) clipLo clipHi))) * clipGate (exX s e) clipLo clipHi

/-- Multiplicity of id `r` in an example's id list (the weight with which
`embedding_lookup` routes the gradient to row `r`). -/
def countId (ids : List Nat) (r : Nat) : Nat := ids.count r

/-- Number of entries of the `(b, d)` tensors inside `tf.reduce_mean` of the
regularization term. -/
def regN (s : BPRMF) (b : Batch) : ℝ :=
  (b.users.length : ℝ) * (s.embedding_size : ℝ)

/-- Gradient of the BPR part of the loss with respect to `embedding_P`, as
`tf.GradientTape` computes it for the loss expression of the source:
entry `(r, f)` sums, over the examples, the multiplicity of user `r` times
the clipped-softplus derivative times `h[f] * (q_pos[f] - q_neg[f])`. -/
noncomputable def gradMainP (s : BPRMF) (b : Batch) : Mat :=
  (List.range s.num_users).map (fun r =>
    (List.range s.embedding_size).map (fun f =>
      ((exList b).map (fun e =>
        (countId e.1 r : ℝ) * (exC s e * (hCol s).getD f 0 *
          ((qVec s e.2.1).getD f 0 - (qVec s e.2.2).getD f 0)))).sum))

/-- Gradient of the regularization term with respect to `embedding_P`:
`reg * mean(square(p) + square(q_pos) + square(q_neg))` differentiates to
`reg * 2 * p[f] / N` per occurrence of user `r`. -/
noncomputable def gradRegP (s : BPRMF) (b : Batch) : Mat :=
  (List.range s.num_users).map (fun r =>
    (List.range s.embedding_size).map (fun f =>
      ((exList b).map (fun e =>
        (countId e.1 r : ℝ) *
          (s.reg * (2 * (pVec s e.1).getD f 0) / regN s b))).sum))

/-- Gradient of `loss_opt = loss + reg_loss` with respect to `embedding_P`. -/
noncomputable def gradOptP (s : BPRMF) (b : Batch) : Mat :=
  matAdd (gradMainP s b) (gradRegP s b)

/-- Gradient of the BPR part of the loss with respect to `embedding_Q`. -/
noncomputable def gradMainQ (s : BPRMF) (b : Batch) : Mat :=
  (List.range s.num_items).map (fun i =>
    (List.range s.embedding_size).map (fun f =>
      ((exList b).map (fun e =>
        exC s e * (hCol s).getD f 0 * (pVec s e.1).getD f 0 *
          ((countId e.2.1 i : ℝ) - (countId e.2.2 i : ℝ)))).sum))

/-- Gradient of the regularization term with respect to `embedding_Q`. -/
noncomputable def gradRegQ (s : BPRMF) (b : Batch) : Mat :=
  (List.range s.num_items).map (fun i =>
    (List.range s.embedding_size).map (fun f =>
      ((exList b).map (fun e =>
        s.reg * (2 * (qVec s e.2.1).getD f 0 * (countId e.2.1 i : ℝ) +
          2 * (qVec s e.2.2).getD f 0 * (countId e.2.2 i : ℝ)) / regN s b)).sum))

/-- Gradient of `loss_opt` with respect to `embedding_Q`. -/
noncomputable def gradOptQ (s : BPRMF) (b : Batch) : Mat :=
  matAdd (gradMainQ s b) (gradRegQ s b)

/-- Three-list `zipWith`, for the Adagrad update. -/
def zipWith3 {α β γ δ : Type} (f : α → β → γ → δ) : List α → List β → List γ → List δ
  | a :: as, b :: bs, c :: cs => f a b c :: zipWith3 f as bs cs
  | _, _, _ => []

/-- One `optimizer.apply_gradients` update of a single variable under keras
Adagrad: `accum += g * g; var -= lr * g / (sqrt(accum) + eps)`.  Returns
the new variable and the new accumulator slot. -/
noncomputable def adagradApply (lr : ℝ) (var accum grad : Mat) : Mat × Mat :=
  let accum2 := List.zipWith (fun arow grow =>
    List.zipWith (fun a g => a + g * g) arow grow) accum grad
  let var2 := zipWith3 (fun vrow arow grow =>
    zipWith3 (fun v a g => v - lr * g / (Real.sqrt a + adagradEps)) vrow arow grow)
    var accum2 grad
  (var2, accum2)

/-- The body of `_train_step`'s loop for one batch: gradient of `loss_opt`
with respect to both embeddings, then `apply_gradients` on both. -/
noncomputable def trainBatchUpdate (s : BPRMF) (b : Batch) : BPRMF :=
  let gP := gradOptP s b
  let gQ := gradOptQ s b
  let PA := adagradApply s.learning_rate s.embedding_P s.accum_P gP
  let QA := adagradApply s.learning_rate s.embedding_Q s.accum_Q gQ
  { s with
    embedding_P := PA.1
    accum_P := PA.2
    embedding_Q := QA.1
    accum_Q := QA.2 }

/-- `_train_step(batches)`: one pass over all batches.  The transient
attributes the source also rebinds (`self.loss` and friends) are modelled
as the pure functions above rather than as state. -/
noncomputable def train_step (s : BPRMF) (batches : List Batch) : BPRMF :=
  batches.foldl trainBatchUpdate s

/-- `train()`: one `_train_step` per epoch; the shuffled batches of each
epoch are the elements of `schedule`. -/
noncomputable def train (s : BPRMF) (schedule : List (List Batch)) : BPRMF :=
  schedule.foldl train_step s

/-- One epoch together with the last value the loop wrote to `self.loss`
(the loss of the final batch, computed before that batch's update;
0 stands for the unbound attribute when the epoch has no batches). -/
noncomputable def stepWithLastLoss (s : BPRMF) (batches : List Batch) : BPRMF × ℝ :=
  batches.foldl (fun acc b => (trainBatchUpdate acc.1 b, batchLoss acc.1 b)) (s, 0)

/-- The `self.loss` value observable after each epoch of `train()`. -/
noncomputable def epochLossList : BPRMF → List (List Batch) → List ℝ
  | _, [] => []
  | s, bs :: rest =>
    (stepWithLastLoss s bs).2 :: epochLossList (stepWithLastLoss s bs).1 rest

/-- `execute_adversarial_attack(epsilon)`: reset the perturbations, take the
gradient of the BPR loss (with its regularization term) at the unperturbed
parameters on one full shuffled batch `ab`, and store the row-wise
L2-normalized gradients scaled by `epsilon` in `delta_P` and `delta_Q`.
(`tf.stop_gradient` is the identity on values.) -/
noncomputable def execute_adversarial_attack (s : BPRMF) (ab : Batch) (epsilon : ℝ) :
    BPRMF :=
  let s0 := initialize_perturbations s
  { s0 with
    delta_P := matScale epsilon (l2normalizeRows (gradOptP s0 ab))
    delta_Q := matScale epsilon (l2normalizeRows (gradOptQ s0 ab)) }

/-- The body of `_adversarial_train_step`'s loop for one batch pair
`(b, ab)`: `b` is the training batch, `ab` the fresh full batch the inner
`execute_adversarial_attack` draws.  The gradient of
`amf_loss = (loss + reg_loss) + loss_adver` splits into the `loss_opt`
gradient at the entry perturbations plus the adversarial softplus gradient
at the attack perturbations (which are `tf.stop_gradient` constants). -/
noncomputable def advBatchUpdate (s : BPRMF) (bb : Batch × Batch) (epsilon : ℝ) :
    BPRMF :=
  let sAtt := execute_adversarial_attack s bb.2 epsilon
  let gP := matAdd (gradOptP s bb.1) (gradMainP sAtt bb.1)
  let gQ := matAdd (gradOptQ s bb.1) (gradMainQ sAtt bb.1)
  let PA := adagradApply s.learning_rate s.embedding_P s.accum_P gP
  let QA := adagradApply s.learning_rate s.embedding_Q s.accum_Q gQ
  { sAtt with
    embedding_P := PA.1
    accum_P := PA.2
    embedding_Q := QA.1
    accum_Q := QA.2 }

/-- `_adversarial_train_step(batches, epsilon)`: the loop over the batch
pairs followed by the final `initialize_perturbations()`. -/
noncomputable def adversarial_train_step (s : BPRMF) (bbs : List (Batch × Batch))
    (epsilon : ℝ) : BPRMF :=
  initialize_perturbations (bbs.foldl (fun st bb => advBatchUpdate st bb epsilon) s)

/-- `adversarial_train(adversarial_epochs, epsilon)`: one
`_adversarial_train_step` per epoch; the number of adversarial epochs is
the length of `sched`. -/
noncomputable def adversarial_train (s : BPRMF) (sched : List (List (Batch × Batch)))
    (epsilon : ℝ) : BPRMF :=
  sched.foldl (fun st bbs => adversarial_train_step st bbs epsilon) s

/-! ### The evaluator

`Evaluator.evaluate()` lives in `src/recommender/Evaluator.py`, which is
not among the repository files shown; the definitions below are modelled
from the spec.  Modelled from the spec: "the evaluator's top-K ranking
metric computation", "standard top-K evaluation loop", leave-one-out test
pairs (notebook text), HR / nDCG / AUC averaged over the users with the
rank of each user's held-out test item among the other items. -/

/-- Score of item `j` for user `u` under the current (possibly perturbed)
model. -/
def itemScore (s : BPRMF) (u j : Nat) : ℝ := entry (get_full_inference s) u j

/-- The candidate items other than the held-out test item `t`. -/
def negItems (s : BPRMF) (t : Nat) : List Nat :=
  (List.range s.num_items).filter (fun j => decide (j ≠ t))

open Classical in
/-- Modelled from the spec: the rank of user `u`'s test item `t`, the
number of other items scored strictly higher. -/
noncomputable def rankOf (s : BPRMF) (u t : Nat) : Nat :=
  ((negItems s t).filter (fun j => decide (itemScore s u t < itemScore s u j))).length

/-- Hit-ratio contribution of one user: 1 when the test item is in the
top-K list. -/
def hrOf (K r : Nat) : ℝ := if r < K then 1 else 0

/-- nDCG contribution of one user under leave-one-out: the discounted gain
`1 / log2(rank + 2)` of the single relevant item when it is in the top-K
list (the ideal DCG is 1). -/
noncomputable def ndcgOf (K r : Nat) : ℝ :=
  if r < K then 1 / Real.logb 2 ((r : ℝ) + 2) else 0

/-- AUC contribution of one user: the fraction of the other items ranked
strictly below the test item. -/
noncomputable def aucOf (n r : Nat) : ℝ := ((n - r : Nat) : ℝ) / (n : ℝ)

/-- Arithmetic mean of a list of reals (0 on the empty list). -/
noncomputable def meanR (xs : List ℝ) : ℝ := xs.sum / (xs.length : ℝ)

/-- Modelled from the spec: `evaluator.evaluate()` returns the three top-K
metrics (HR, nDCG, AUC) averaged over the leave-one-out test pairs. -/
noncomputable def evaluate (s : BPRMF) (testPairs : List (Nat × Nat)) (K : Nat) :
    ℝ × ℝ × ℝ :=
  (meanR (testPairs.map (fun ut => hrOf K (rankOf s ut.1 ut.2))),
   meanR (testPairs.map (fun ut => ndcgOf K (rankOf s ut.1 ut.2))),
   meanR (testPairs.map (fun ut => aucOf (negItems s ut.2).length (rankOf s ut.1 ut.2))))

/-! ### The notebook's top-level script -/

/-- The kinds of top-level model operations the notebook cells perform. -/
inductive Step where
  | loadData
  | constructModel
  | trainModel
  | evaluateModel
  | attackModel
  | advTrainModel
deriving DecidableEq

/-- The sequence of top-level model operations of the notebook's code
cells, in cell order: `DataLoader(...)`; `BPRMF(...)`; `.train()`;
`.evaluator.evaluate()`; `.execute_adversarial_attack(...)`;
`.evaluator.evaluate()`; `.adversarial_train(...)`;
`.evaluator.evaluate()`; `.execute_adversarial_attack(...)`;
`.evaluator.evaluate()`. -/
def notebookTrace : List Step :=
  [Step.loadData, Step.constructModel, Step.trainModel, Step.evaluateModel,
   Step.attackModel, Step.evaluateModel, Step.advTrainModel, Step.evaluateModel,
   Step.attackModel, Step.evaluateModel]

/-- The spec's claimed linear sequence: "load data → construct model →
train → evaluate → perturb → evaluate → adversarially train → evaluate". -/
def specTrace : List Step :=
  [Step.loadData, Step.constructModel, Step.trainModel, Step.evaluateModel,
   Step.attackModel, Step.evaluateModel, Step.advTrainModel, Step.evaluateModel]

/-- The file paths a step writes.  None of the notebook's model operations
invoke any file API (src/main.ipynb contains no file I/O call), and the
components outside src/ are modelled from the spec as I/O-free
("output directory paths (unused in the shown flow)",
"no persistence format beyond optional output file paths left unused"). -/
def stepFileWrites : Step → List String := fun _ => []

/-- All file paths written during the notebook's run. -/
def notebookFileWrites : List String := (notebookTrace.map stepFileWrites).flatten

/-! ### Error propagation

The notebook contains no `try`/`except`: a straight-line script sequences
its library calls, and an exception raised by call `k` aborts the run with
that exact error.  `libCall` models the fallible numeric-library call
behind step `k` via a fault oracle, and `runTraceE` the sequencing of the
notebook's top-level steps with no recovery branch. -/

/-- A numeric-library call that may raise: the oracle says whether the
call at position `k` fails and with which library error. -/
def libCall (oracle : Nat → Option String) (k : Nat) : Except String Unit :=
  match oracle k with
  | some e => Except.error e
  | none => Except.ok ()

/-- The notebook's top-level run with fallible library calls, sequenced
with no handler (plain propagation, as in the source). -/
def runTraceE (oracle : Nat → Option String) : Except String Unit :=
  (List.range notebookTrace.length).foldl
    (fun acc k => acc.bind (fun _ => libCall oracle k)) (Except.ok ())

/-! ### Shape predicates -/

/-- `A` is a rectangular `r × c` matrix. -/
def IsShape (A : Mat) (r c : Nat) : Prop :=
  A.length = r ∧ ∀ row ∈ A, row.length = c

instance (A : Mat) (r c : Nat) : Decidable (IsShape A r c) := by
  unfold IsShape; infer_instance

/-- All six matrices of the state have the shapes the model maintains:
the perturbations and the optimizer slots shaped like the embeddings. -/
def WF (s : BPRMF) : Prop :=
  IsShape s.embedding_P s.num_users s.embedding_size ∧
  IsShape s.embedding_Q s.num_items s.embedding_size ∧
  IsShape s.delta_P s.num_users s.embedding_size ∧
  IsShape s.delta_Q s.num_items s.embedding_size ∧
  IsShape s.accum_P s.num_users s.embedding_size ∧
  IsShape s.accum_Q s.num_items s.embedding_size

instance (s : BPRMF) : Decidable (WF s) := by
  unfold WF; infer_instance

/-! ### Shape lemmas -/

theorem IsShape_zerosMat (r c : Nat) : IsShape (zerosMat r c) r c := by
  refine ⟨List.length_replicate _ _, fun row hrow => ?_⟩
  rw [List.eq_of_mem_replicate hrow]
  exact List.length_replicate _ _

theorem IsShape_constMat (r c : Nat) (v : ℝ) : IsShape (constMat r c v) r c := by
  refine ⟨List.length_replicate _ _, fun row hrow => ?_⟩
  rw [List.eq_of_mem_replicate hrow]
  exact List.length_replicate _ _

theorem IsShape_map {A : Mat} {r c c' : Nat} (g : Vec → Vec)
    (hg : ∀ v, v.length = c → (g v).length = c') (hA : IsShape A r c) :
    IsShape (A.map g) r c' := by
  refine ⟨by simpa using hA.1, fun row hrow => ?_⟩
  obtain ⟨v, hv, rfl⟩ := List.mem_map.mp hrow
  exact hg v (hA.2 v hv)

theorem IsShape_zipWith {c : Nat} (g : Vec → Vec → Vec)
    (hg : ∀ v w, v.length = c → w.length = c → (g v w).length = c) :
    ∀ {A B : Mat} {r : Nat}, IsShape A r c → IsShape B r c →
      IsShape (List.zipWith g A B) r c := by
  intro A
  induction A with
  | nil =>
    intro B r hA hB
    exact ⟨by simp [← hA.1], by simp⟩
  | cons a as ih =>
    intro B r hA hB
    match B, r with
    | [], r => exact absurd (hA.1.trans hB.1.symm) (by simp)
    | b :: bs, 0 => exact absurd hA.1 (by simp)
    | b :: bs, r + 1 =>
      have has : IsShape as r c :=
        ⟨by simpa using hA.1, fun row hrow => hA.2 row (List.mem_cons_of_mem _ hrow)⟩
      have hbs : IsShape bs r c :=
        ⟨by simpa using hB.1, fun row hrow => hB.2 row (List.mem_cons_of_mem _ hrow)⟩
      have hrec := ih has hbs
      refine ⟨by simpa using hrec.1, fun row hrow => ?_⟩
      rcases List.mem_cons.mp hrow with hrow | hrow
      · rw [hrow]
        exact hg a b (hA.2 a (by simp)) (hB.2 b (by simp))
      · exact hrec.2 row hrow

theorem zipWith3_length {α β γ δ : Type} (f : α → β → γ → δ) :
    ∀ (as : List α) (bs : List β) (cs : List γ) (n : Nat),
      as.length = n → bs.length = n → cs.length = n →
      (zipWith3 f as bs cs).length = n := by
  intro as
  induction as with
  | nil => intro bs cs n ha _ _; simp [zipWith3, ← ha]
  | cons a as ih =>
    intro bs cs n ha hb hc
    match bs, cs, n with
    | [], _, n => exact absurd (ha.trans hb.symm) (by simp)
    | b :: bs, [], n => exact absurd (ha.trans hc.symm) (by simp)
    | b :: bs, c :: cs, 0 => exact absurd ha (by simp)
    | b :: bs, c :: cs, n + 1 =>
      simp only [zipWith3, List.length_cons]
      exact congrArg Nat.succ
        (ih bs cs n (by simpa using ha) (by simpa using hb) (by simpa using hc))

theorem IsShape_zipWith3 {c : Nat} (g : Vec → Vec → Vec → Vec)
    (hg : ∀ u v w, u.length = c → v.length = c → w.length = c →
      (g u v w).length = c) :
    ∀ {A B C : Mat} {r : Nat}, IsShape A r c → IsShape B r c → IsShape C r c →
      IsShape (zipWith3 g A B C) r c := by
  intro A
  induction A with
  | nil => intro B C r hA hB hC; exact ⟨by simp [zipWith3, ← hA.1], by simp [zipWith3]⟩
  | cons a as ih =>
    intro B C r hA hB hC
    match B, C, r with
    | [], _, r => exact absurd (hA.1.trans hB.1.symm) (by simp)
    | b :: bs, [], r => exact absurd (hA.1.trans hC.1.symm) (by simp)
    | b :: bs, c' :: cs, 0 => exact absurd hA.1 (by simp)
    | b :: bs, c' :: cs, r + 1 =>
      have has : IsShape as r c :=
        ⟨by simpa using hA.1, fun row hrow => hA.2 row (List.mem_cons_of_mem _ hrow)⟩
      have hbs : IsShape bs r c :=
        ⟨by simpa using hB.1, fun row hrow => hB.2 row (List.mem_cons_of_mem _ hrow)⟩
      have hcs : IsShape cs r c :=
        ⟨by simpa using hC.1, fun row hrow => hC.2 row (List.mem_cons_of_mem _ hrow)⟩
      have hrec := ih has hbs hcs
      refine ⟨?_, fun row hrow => ?_⟩
      · simp only [zipWith3, List.length_cons, hrec.1]
      · simp only [zipWith3] at hrow
        rcases List.mem_cons.mp hrow with hrow | hrow
        · rw [hrow]
          exact hg a b c' (hA.2 a (by simp)) (hB.2 b (by simp)) (hC.2 c' (by simp))
        · exact hrec.2 row hrow

theorem IsShape_matAdd {A B : Mat} {r c : Nat} (hA : IsShape A r c)
    (hB : IsShape B r c) : IsShape (matAdd A B) r c :=
  IsShape_zipWith vecAdd
    (fun v w hv hw => by simp [vecAdd, hv, hw]) hA hB

theorem IsShape_matScale {A : Mat} {r c : Nat} (e : ℝ) (hA : IsShape A r c) :
    IsShape (matScale e A) r c :=
  IsShape_map _ (fun v hv => by simpa using hv) hA

theorem IsShape_l2normalizeRows {A : Mat} {r c : Nat} (hA : IsShape A r c) :
    IsShape (l2normalizeRows A) r c :=
  IsShape_map _ (fun v hv => by simpa [l2normalizeRow] using hv) hA

theorem IsShape_rangeMap (g : Nat → Nat → ℝ) (r c : Nat) :
    IsShape ((List.range r).map (fun i => (List.range c).map (g i))) r c := by
  refine ⟨by simp, fun row hrow => ?_⟩
  obtain ⟨i, _, rfl⟩ := List.mem_map.mp hrow
  simp

theorem IsShape_gradMainP (s : BPRMF) (b : Batch) :
    IsShape (gradMainP s b) s.num_users s.embedding_size :=
  IsShape_rangeMap _ _ _

theorem IsShape_gradRegP (s : BPRMF) (b : Batch) :
    IsShape (gradRegP s b) s.num_users s.embedding_size :=
  IsShape_rangeMap _ _ _

theorem IsShape_gradOptP (s : BPRMF) (b : Batch) :
    IsShape (gradOptP s b) s.num_users s.embedding_size :=
  IsShape_matAdd (IsShape_gradMainP s b) (IsShape_gradRegP s b)

theorem IsShape_gradMainQ (s : BPRMF) (b : Batch) :
    IsShape (gradMainQ s b) s.num_items s.embedding_size :=
  IsShape_rangeMap _ _ _

theorem IsShape_gradRegQ (s : BPRMF) (b : Batch) :
    IsShape (gradRegQ s b) s.num_items s.embedding_size :=
  IsShape_rangeMap _ _ _

theorem IsShape_gradOptQ (s : BPRMF) (b : Batch) :
    IsShape (gradOptQ s b) s.num_items s.embedding_size :=
  IsShape_matAdd (IsShape_gradMainQ s b) (IsShape_gradRegQ s b)

theorem IsShape_adagradApply {var accum grad : Mat} {r c : Nat} (lr : ℝ)
    (hv : IsShape var r c) (ha : IsShape accum r c) (hg : IsShape grad r c) :
    IsShape (adagradApply lr var accum grad).1 r c ∧
      IsShape (adagradApply lr var accum grad).2 r c := by
  have haccum2 : IsShape (List.zipWith (fun arow grow =>
      List.zipWith (fun a g => a + g * g) arow grow) accum grad) r c :=
    IsShape_zipWith _ (fun v w hv' hw' => by simp [hv', hw']) ha hg
  refine ⟨?_, haccum2⟩
  exact IsShape_zipWith3 _
    (fun u v w hu hv' hw =>
      zipWith3_length _ u v w c hu hv' hw) hv haccum2 hg

/-! ### Preservation of well-formed shapes by the model's operations -/

theorem WF_initialize_perturbations {s : BPRMF} (hs : WF s) :
    WF (initialize_perturbations s) :=
  ⟨hs.1, hs.2.1, IsShape_zerosMat _ _, IsShape_zerosMat _ _, hs.2.2.2.2.1, hs.2.2.2.2.2⟩

theorem WF_trainBatchUpdate {s : BPRMF} (b : Batch) (hs : WF s) :
    WF (trainBatchUpdate s b) := by
  obtain ⟨hP, hQ, hdP, hdQ, haP, haQ⟩ := hs
  have hPA := IsShape_adagradApply s.learning_rate hP haP (IsShape_gradOptP s b)
  have hQA := IsShape_adagradApply s.learning_rate hQ haQ (IsShape_gradOptQ s b)
  exact ⟨hPA.1, hQA.1, hdP, hdQ, hPA.2, hQA.2⟩

theorem WF_train_step {s : BPRMF} (bs : List Batch) (hs : WF s) :
    WF (train_step s bs) := by
  induction bs generalizing s with
  | nil => exact hs
  | cons b bs ih => exact ih (WF_trainBatchUpdate b hs)

theorem WF_execute_adversarial_attack {s : BPRMF} (ab : Batch) (epsilon : ℝ)
    (hs : WF s) : WF (execute_adversarial_attack s ab epsilon) := by
  obtain ⟨hP, hQ, _, _, haP, haQ⟩ := hs
  exact ⟨hP, hQ,
    IsShape_matScale _ (IsShape_l2normalizeRows (IsShape_gradOptP _ ab)),
    IsShape_matScale _ (IsShape_l2normalizeRows (IsShape_gradOptQ _ ab)),
    haP, haQ⟩

theorem WF_advBatchUpdate {s : BPRMF} (bb : Batch × Batch) (epsilon : ℝ)
    (hs : WF s) : WF (advBatchUpdate s bb epsilon) := by
  obtain ⟨hP, hQ, hdP, hdQ, haP, haQ⟩ := hs
  have hAtt := WF_execute_adversarial_attack bb.2 epsilon
    ⟨hP, hQ, hdP, hdQ, haP, haQ⟩
  have hgP : IsShape (matAdd (gradOptP s bb.1)
      (gradMainP (execute_adversarial_attack s bb.2 epsilon) bb.1))
      s.num_users s.embedding_size :=
    IsShape_matAdd (IsShape_gradOptP s bb.1)
      (IsShape_gradMainP (execute_adversarial_attack s bb.2 epsilon) bb.1)
  have hgQ : IsShape (matAdd (gradOptQ s bb.1)
      (gradMainQ (execute_adversarial_attack s bb.2 epsilon) bb.1))
      s.num_items s.embedding_size :=
    IsShape_matAdd (IsShape_gradOptQ s bb.1)
      (IsShape_gradMainQ (execute_adversarial_attack s bb.2 epsilon) bb.1)
  have hPA := IsShape_adagradApply s.learning_rate hP haP hgP
  have hQA := IsShape_adagradApply s.learning_rate hQ haQ hgQ
  exact ⟨hPA.1, hQA.1, hAtt.2.2.1, hAtt.2.2.2.1, hPA.2, hQA.2⟩

theorem WF_advFold {s : BPRMF} (bbs : List (Batch × Batch)) (epsilon : ℝ)
    (hs : WF s) :
    WF (bbs.foldl (fun st bb => advBatchUpdate st bb epsilon) s) := by
  induction bbs generalizing s with
  | nil => exact hs
  | cons bb bbs ih => exact ih (WF_advBatchUpdate bb epsilon hs)

theorem WF_adversarial_train_step {s : BPRMF} (bbs : List (Batch × Batch))
    (epsilon : ℝ) (hs : WF s) : WF (adversarial_train_step s bbs epsilon) :=
  WF_initialize_perturbations (WF_advFold bbs epsilon hs)

theorem WF_mkBPRMF {num_users num_items : Nat} {P0 Q0 : Mat}
    (resPath wPath : String) (hP : IsShape P0 num_users 64)
    (hQ : IsShape Q0 num_items 64) :
    WF (mkBPRMF num_users num_items P0 Q0 resPath wPath) :=
  ⟨hP, hQ, IsShape_zerosMat _ _, IsShape_zerosMat _ _,
    IsShape_constMat _ _ _, IsShape_constMat _ _ _⟩

/-! ### Frame lemmas: which state the operations leave untouched -/

theorem train_step_frame (s : BPRMF) (bs : List Batch) :
    (train_step s bs).delta_P = s.delta_P ∧
    (train_step s bs).delta_Q = s.delta_Q ∧
    (train_step s bs).h = s.h ∧
    (train_step s bs).num_users = s.num_users ∧
    (train_step s bs).num_items = s.num_items ∧
    (train_step s bs).embedding_size = s.embedding_size := by
  induction bs generalizing s with
  | nil => exact ⟨rfl, rfl, rfl, rfl, rfl, rfl⟩
  | cons b bs ih => exact ih (trainBatchUpdate s b)

theorem advFold_dims (bbs : List (Batch × Batch)) (epsilon : ℝ) (s : BPRMF) :
    (bbs.foldl (fun st bb => advBatchUpdate st bb epsilon) s).num_users = s.num_users ∧
    (bbs.foldl (fun st bb => advBatchUpdate st bb epsilon) s).num_items = s.num_items ∧
    (bbs.foldl (fun st bb => advBatchUpdate st bb epsilon) s).embedding_size =
      s.embedding_size := by
  induction bbs generalizing s with
  | nil => exact ⟨rfl, rfl, rfl⟩
  | cons bb bbs ih => exact ih (advBatchUpdate s bb epsilon)

theorem adversarial_train_step_dims (s : BPRMF) (bbs : List (Batch × Batch))
    (epsilon : ℝ) :
    (adversarial_train_step s bbs epsilon).num_users = s.num_users ∧
    (adversarial_train_step s bbs epsilon).num_items = s.num_items ∧
    (adversarial_train_step s bbs epsilon).embedding_size = s.embedding_size :=
  advFold_dims bbs epsilon s

/-! ### Deltas after adversarial training -/

theorem vecAdd_replicate_zero : ∀ (v : Vec) (c : Nat), v.length = c →
    vecAdd v (List.replicate c 0) = v := by
  intro v
  induction v with
  | nil => intro c h; simp [vecAdd]
  | cons a as ih =>
    intro c h
    match c with
    | 0 => exact absurd h (by simp)
    | c + 1 =>
      simp only [List.replicate_succ, vecAdd, List.zipWith_cons_cons, add_zero]
      rw [(by rfl : List.zipWith (· + ·) as (List.replicate c 0) =
        vecAdd as (List.replicate c 0)), ih c (by simpa using h)]

theorem matAdd_zerosMat : ∀ {A : Mat} {r c : Nat}, IsShape A r c →
    matAdd A (zerosMat r c) = A := by
  intro A
  induction A with
  | nil => intro r c _; simp [matAdd]
  | cons a as ih =>
    intro r c hA
    match r with
    | 0 => exact absurd hA.1 (by simp)
    | r + 1 =>
      have has : IsShape as r c :=
        ⟨by simpa using hA.1, fun row hrow => hA.2 row (List.mem_cons_of_mem _ hrow)⟩
      simp only [zerosMat, List.replicate_succ, matAdd, List.zipWith_cons_cons]
      rw [(by rfl : List.zipWith vecAdd as (List.replicate r (List.replicate c 0)) =
        matAdd as (zerosMat r c)), ih has,
        vecAdd_replicate_zero a c (hA.2 a (by simp))]

theorem adversarial_train_step_deltas (s : BPRMF) (bbs : List (Batch × Batch))
    (epsilon : ℝ) :
    (adversarial_train_step s bbs epsilon).delta_P =
      zerosMat s.num_users s.embedding_size ∧
    (adversarial_train_step s bbs epsilon).delta_Q =
      zerosMat s.num_items s.embedding_size := by
  obtain ⟨h1, h2, h3⟩ := advFold_dims bbs epsilon s
  constructor
  · show zerosMat _ _ = _
    rw [h1, h3]
  · show zerosMat _ _ = _
    rw [h2, h3]

theorem adversarial_train_deltas (s : BPRMF) (epsilon : ℝ) :
    ∀ sched, sched ≠ [] →
      (adversarial_train s sched epsilon).delta_P =
        zerosMat s.num_users s.embedding_size ∧
      (adversarial_train s sched epsilon).delta_Q =
        zerosMat s.num_items s.embedding_size := by
  intro sched
  induction sched generalizing s with
  | nil => intro hne; exact absurd rfl hne
  | cons bbs rest ih =>
    intro _
    match rest with
    | [] => exact adversarial_train_step_deltas s bbs epsilon
    | bbs2 :: rest2 =>
      have hstep := ih (adversarial_train_step s bbs epsilon) (by simp)
      obtain ⟨d1, d2, d3⟩ := adversarial_train_step_dims s bbs epsilon
      rw [d1, d2, d3] at hstep
      exact hstep

theorem adversarial_train_step_unperturbed {s : BPRMF}
    (bbs : List (Batch × Batch)) (epsilon : ℝ) (hs : WF s) :
    get_full_inference (adversarial_train_step s bbs epsilon) =
      matmul (adversarial_train_step s bbs epsilon).embedding_P
        (matTranspose (adversarial_train_step s bbs epsilon).embedding_Q) := by
  have hWF2 := WF_adversarial_train_step bbs epsilon hs
  obtain ⟨hdP, hdQ⟩ := adversarial_train_step_deltas s bbs epsilon
  obtain ⟨d1, d2, d3⟩ := adversarial_train_step_dims s bbs epsilon
  have hP := hWF2.1
  have hQ := hWF2.2.1
  rw [d1, d3] at hP
  rw [d2, d3] at hQ
  rw [get_full_inference, hdP, hdQ, matAdd_zerosMat hP, matAdd_zerosMat hQ]

/-! ### Entries of the inference matrices -/

theorem map_range_getD (l : Vec) (n : Nat) (h : l.length = n) :
    (List.range n).map (fun i => l.getD i 0) = l := by
  induction l generalizing n with
  | nil => simp [← h]
  | cons a as ih =>
    match n with
    | 0 => exact absurd h (by simp)
    | n + 1 =>
      rw [List.range_succ_eq_map]
      simp only [List.map_cons, List.getD_cons_zero, List.map_map]
      congr 1
      have : ((fun i => List.getD (a :: as) i 0) ∘ Nat.succ) =
          (fun i => List.getD as i 0) := by
        funext i
        simp [Function.comp]
      rw [this]
      exact ih n (by simpa using h)

theorem numCols_of_shape {A : Mat} {r c : Nat} (hA : IsShape A r c) (hr : 0 < r) :
    numCols A = c := by
  match A with
  | [] => exact absurd hA.1 (by simp; omega)
  | a :: as => exact hA.2 a (by simp)

theorem getD_map_range {n j : Nat} (g : Nat → ℝ) (hj : j < n) :
    (((List.range n).map g).getD j 0) = g j := by
  rw [List.getD_eq_getElem?_getD]
  rw [List.getElem?_map]
  rw [List.getElem?_range hj]
  rfl

theorem getD_map_of_lt {α β : Type} {l : List α} {u : Nat} (hu : u < l.length)
    (g : α → β) (d : α) (d' : β) : (l.map g).getD u d' = g (l.getD u d) := by
  rw [List.getD_eq_getElem?_getD, List.getElem?_map]
  rw [List.getD_eq_getElem?_getD]
  rw [List.getElem?_eq_getElem hu]
  rfl

theorem matmul_entry {A B : Mat} {u j : Nat} (hu : u < A.length)
    (hj : j < numCols B) :
    entry (matmul A B) u j = dot (A.getD u []) (colV B j) := by
  rw [entry, matmul]
  rw [getD_map_of_lt hu _ []]
  exact getD_map_range _ hj

theorem getD_mem_of_lt {A : Mat} {u : Nat} (hu : u < A.length) :
    A.getD u [] ∈ A := by
  rw [List.getD_eq_getElem?_getD, List.getElem?_eq_getElem hu]
  exact List.getElem_mem hu

theorem colV_transpose {B : Mat} {j c : Nat} (hrect : ∀ row ∈ B, row.length = c)
    (hc : numCols B = c) (hj : j < B.length) :
    colV (matTranspose B) j = B.getD j [] := by
  rw [matTranspose, colV, List.map_map]
  have hrow : ∀ f : Nat, ((colV B f).getD j 0) = (B.getD j []).getD f 0 := by
    intro f
    rw [colV, getD_map_of_lt hj _ []]
  have : ((fun row => List.getD row j 0) ∘ fun f => colV B f) =
      (fun f => (B.getD j []).getD f 0) := by
    funext f
    simp only [Function.comp]
    exact hrow f
  rw [this, hc]
  exact map_range_getD _ _ (hrect _ (getD_mem_of_lt hj))

theorem zipWith_mul_replicate_one : ∀ (v : Vec) (d : Nat), v.length ≤ d →
    List.zipWith (· * ·) v (List.replicate d (1 : ℝ)) = v := by
  intro v
  induction v with
  | nil => intro d _; simp
  | cons a as ih =>
    intro d hd
    match d with
    | 0 => exact absurd hd (by simp)
    | d + 1 =>
      simp only [List.replicate_succ, List.zipWith_cons_cons, mul_one]
      rw [ih d (by simpa using hd)]

/-! ### Metric bounds -/

theorem listSum_nonneg {xs : List ℝ} (h : ∀ x ∈ xs, 0 ≤ x) : 0 ≤ xs.sum := by
  induction xs with
  | nil => simp
  | cons a as ih =>
    rw [List.sum_cons]
    exact add_nonneg (h a (by simp)) (ih (fun x hx => h x (List.mem_cons_of_mem _ hx)))

theorem listSum_le_length {xs : List ℝ} (h : ∀ x ∈ xs, x ≤ 1) :
    xs.sum ≤ (xs.length : ℝ) := by
  induction xs with
  | nil => simp
  | cons a as ih =>
    rw [List.sum_cons, List.length_cons]
    push_cast
    have := ih (fun x hx => h x (List.mem_cons_of_mem _ hx))
    have ha := h a (by simp)
    linarith

theorem meanR_bounds {xs : List ℝ} (h0 : ∀ x ∈ xs, 0 ≤ x) (h1 : ∀ x ∈ xs, x ≤ 1) :
    0 ≤ meanR xs ∧ meanR xs ≤ 1 := by
  match xs with
  | [] => norm_num [meanR]
  | a :: as =>
    have hlen : (0 : ℝ) < ((a :: as).length : ℝ) := by
      simp only [List.length_cons]
      push_cast
      positivity
    constructor
    · exact div_nonneg (listSum_nonneg h0) (le_of_lt hlen)
    · rw [meanR, div_le_one hlen]
      exact listSum_le_length h1

theorem hrOf_bounds (K r : Nat) : 0 ≤ hrOf K r ∧ hrOf K r ≤ 1 := by
  rw [hrOf]
  split <;> norm_num

theorem ndcgOf_bounds (K r : Nat) : 0 ≤ ndcgOf K r ∧ ndcgOf K r ≤ 1 := by
  rw [ndcgOf]
  split
  · have h2 : (1 : ℝ) < 2 := by norm_num
    have hx : (1 : ℝ) < (r : ℝ) + 2 := by
      have : (0 : ℝ) ≤ (r : ℝ) := Nat.cast_nonneg r
      linarith
    have hpos : 0 < Real.logb 2 ((r : ℝ) + 2) := Real.logb_pos h2 hx
    have hone : 1 ≤ Real.logb 2 ((r : ℝ) + 2) := by
      have hself : Real.logb 2 (2 : ℝ) = 1 := Real.logb_self_eq_one h2
      rw [← hself]
      exact Real.logb_le_logb_of_le h2 (by norm_num) (by linarith)
    constructor
    · positivity
    · rw [div_le_one hpos]
      exact hone
  · norm_num

theorem aucOf_bounds (n r : Nat) : 0 ≤ aucOf n r ∧ aucOf n r ≤ 1 := by
  rw [aucOf]
  match n with
  | 0 => norm_num
  | n + 1 =>
    have hpos : (0 : ℝ) < ((n + 1 : Nat) : ℝ) := by positivity
    constructor
    · exact div_nonneg (Nat.cast_nonneg _) (le_of_lt hpos)
    · rw [div_le_one hpos]
      exact_mod_cast Nat.sub_le (n + 1) r

/-! ### Error propagation -/

theorem foldl_bind_error (oracle : Nat → Option String) (e : String) :
    ∀ l : List Nat, l.foldl
      (fun acc k => acc.bind (fun _ => libCall oracle k)) (Except.error e) =
      Except.error e := by
  intro l
  induction l with
  | nil => rfl
  | cons k ks ih => simpa [Except.bind] using ih

theorem foldl_ok_of_none (oracle : Nat → Option String) :
    ∀ n : Nat, (∀ i, i < n → oracle i = none) →
      (List.range n).foldl
        (fun acc k => acc.bind (fun _ => libCall oracle k)) (Except.ok ()) =
        Except.ok () := by
  intro n
  induction n with
  | zero => intro _; rfl
  | succ n ih =>
    intro h
    rw [List.range_succ, List.foldl_append]
    rw [ih (fun i hi => h i (Nat.lt_succ_of_lt hi))]
    simp [libCall, h n (Nat.lt_succ_self n), Except.bind]

/-! ### Concrete instances used by the counterexamples and witnesses -/

/-- A one-example batch: user 0 against positive item 0 and negative item 1. -/
def bU : Batch := { users := [[0]], pos := [[0]], neg := [[1]] }

/-- A tiny model state: 1 user, 2 items, embedding size 1. -/
noncomputable def tinyState (P Q dP dQ : Mat) : BPRMF :=
  { num_users := 1, num_items := 2, embedding_size := 1,
    learning_rate := 1 / 20, reg := 0, epochs := 5, batch_size := 512,
    path_output_rec_result := "../rec_result/",
    path_output_rec_weight := "../rec_weights/",
    embedding_P := P, embedding_Q := Q, h := [[1]],
    delta_P := dP, delta_Q := dQ,
    accum_P := [[adagradInit]], accum_Q := [[adagradInit], [adagradInit]] }

/-- The all-zero tiny model. -/
noncomputable def sZero : BPRMF := tinyState [[0]] [[0], [0]] [[0]] [[0], [0]]

/-- Tiny model with user embedding 1 and zero item embeddings. -/
noncomputable def sOneP : BPRMF := tinyState [[1]] [[0], [0]] [[0]] [[0], [0]]

/-- Tiny model carrying a nonzero perturbation `delta_P = [[1]]`. -/
noncomputable def sDelta : BPRMF := tinyState [[0]] [[0], [0]] [[1]] [[0], [0]]

/-- At the all-zero state both loss gradients vanish, so one training batch
leaves the state unchanged. -/
theorem trainBatchUpdate_sZero_fixed : trainBatchUpdate sZero bU = sZero := by
  have hP : gradOptP sZero bU = [[0]] := by
    norm_num [gradOptP, gradMainP, gradRegP, sZero, tinyState, bU, exList, qVec, pVec,
      lookupRows, matAdd, vecAdd, sumRows, List.range_succ, countId, hCol, colV]
  have hQ : gradOptQ sZero bU = [[0], [0]] := by
    norm_num [gradOptQ, gradMainQ, gradRegQ, sZero, tinyState, bU, exList, qVec, pVec,
      lookupRows, matAdd, vecAdd, sumRows, List.range_succ, countId, hCol, colV]
  rw [trainBatchUpdate, hP, hQ]
  norm_num [adagradApply, zipWith3, sZero, tinyState]

/-! ### The claims -/

/-- The perturbation the spec's words describe for claim C1, as a definition
following the spec rather than the source: "L2-normalize the gradient
(row-wise), scale it by epsilon, clip, and add it to the embeddings, storing
the result in delta_P".  The spec names no clipping bounds; the only clip in
the source uses `(-80, 1e8)`, so those are used here. -/
noncomputable def claimedAttackDeltaP (s : BPRMF) (ab : Batch) (epsilon : ℝ) : Mat :=
  matAdd s.embedding_P
    (matClip (matScale epsilon (l2normalizeRows (gradOptP (initialize_perturbations s) ab)))
      clipLo clipHi)

/-- Claim C1, as stated, is false: `execute_adversarial_attack` neither
clips the scaled normalized gradient nor adds it to the embeddings before
storing; at a concrete state with `embedding_P = [[1]]` and zero item
embeddings the stored `delta_P` is `[[0]]` while the spec's words give
`[[1]]`. -/
theorem C1_counterexample :
    (execute_adversarial_attack sOneP bU (1 / 2)).delta_P ≠
      claimedAttackDeltaP sOneP bU (1 / 2) := by
  have hg : gradOptP (initialize_perturbations sOneP) bU = [[0]] := by
    norm_num [gradOptP, gradMainP, gradRegP, initialize_perturbations, zerosMat,
      sOneP, tinyState, bU, exList, qVec, pVec,
      lookupRows, matAdd, vecAdd, sumRows, List.range_succ, countId, hCol, colV]
  rw [execute_adversarial_attack, claimedAttackDeltaP, hg]
  norm_num [l2normalizeRows, l2normalizeRow, sumSq, matScale, matClip, matAdd,
    vecAdd, clipVal, clipLo, clipHi, max_def, min_def, sOneP, tinyState,
    initialize_perturbations, zerosMat]

/-- Claim C1 (amended): for every epsilon, `execute_adversarial_attack`
stores in `delta_P` and `delta_Q` exactly the row-wise L2-normalized
gradients of the BPR loss (taken at the freshly reset perturbations) scaled
by epsilon — with no clipping step and without adding the embeddings, which
stay untouched; the result does not depend on the perturbations held
before the call. -/
theorem C1_attack_builds_normalized_gradient (s : BPRMF) (ab : Batch) (epsilon : ℝ) :
    (execute_adversarial_attack s ab epsilon).delta_P =
      matScale epsilon (l2normalizeRows (gradOptP (initialize_perturbations s) ab)) ∧
    (execute_adversarial_attack s ab epsilon).delta_Q =
      matScale epsilon (l2normalizeRows (gradOptQ (initialize_perturbations s) ab)) ∧
    (execute_adversarial_attack s ab epsilon).embedding_P = s.embedding_P ∧
    (execute_adversarial_attack s ab epsilon).embedding_Q = s.embedding_Q ∧
    (∀ dP dQ : Mat,
      execute_adversarial_attack { s with delta_P := dP, delta_Q := dQ } ab epsilon =
        execute_adversarial_attack s ab epsilon) :=
  ⟨rfl, rfl, rfl, rfl, fun _ _ => rfl⟩

/-- Claim C2, as stated, is false for zero adversarial epochs: with an
empty epoch schedule `adversarial_train` returns at once and a nonzero
`delta_P` survives it. -/
theorem C2_counterexample :
    (adversarial_train sDelta [] (1 / 2)).delta_P ≠
      zerosMat sDelta.num_users sDelta.embedding_size := by
  norm_num [adversarial_train, sDelta, tinyState, zerosMat]

/-- Claim C2 (amended): after every call to `_adversarial_train_step`
`delta_P` and `delta_Q` are zero matrices, hence they are zero after
`adversarial_train` returns for any positive number of adversarial epochs
and any epsilon; the subsequent full inference therefore scores the
unperturbed embeddings. -/
theorem C2_perturbations_zeroed (s : BPRMF) (bbs : List (Batch × Batch))
    (epsilon : ℝ) :
    ((adversarial_train_step s bbs epsilon).delta_P =
        zerosMat s.num_users s.embedding_size ∧
      (adversarial_train_step s bbs epsilon).delta_Q =
        zerosMat s.num_items s.embedding_size) ∧
    (∀ sched : List (List (Batch × Batch)), sched ≠ [] →
      (adversarial_train s sched epsilon).delta_P =
          zerosMat s.num_users s.embedding_size ∧
        (adversarial_train s sched epsilon).delta_Q =
          zerosMat s.num_items s.embedding_size) ∧
    (WF s → get_full_inference (adversarial_train_step s bbs epsilon) =
      matmul (adversarial_train_step s bbs epsilon).embedding_P
        (matTranspose (adversarial_train_step s bbs epsilon).embedding_Q)) :=
  ⟨adversarial_train_step_deltas s bbs epsilon,
   adversarial_train_deltas s epsilon,
   fun hs => adversarial_train_step_unperturbed bbs epsilon hs⟩

/-- Witness for C2 at a concrete state and a one-epoch schedule. -/
theorem C2_witness :
    (([[(bU, bU)]] : List (List (Batch × Batch))) ≠ [] ∧ WF sOneP) ∧
    ((adversarial_train sOneP [[(bU, bU)]] (1 / 2)).delta_P =
        zerosMat sOneP.num_users sOneP.embedding_size ∧
      (adversarial_train sOneP [[(bU, bU)]] (1 / 2)).delta_Q =
        zerosMat sOneP.num_items sOneP.embedding_size) ∧
    get_full_inference (adversarial_train_step sOneP [(bU, bU)] (1 / 2)) =
      matmul (adversarial_train_step sOneP [(bU, bU)] (1 / 2)).embedding_P
        (matTranspose (adversarial_train_step sOneP [(bU, bU)] (1 / 2)).embedding_Q) :=
  ⟨⟨by simp, by decide⟩,
   (C2_perturbations_zeroed sOneP [(bU, bU)] (1 / 2)).2.1 [[(bU, bU)]] (by simp),
   (C2_perturbations_zeroed sOneP [(bU, bU)] (1 / 2)).2.2 (by decide)⟩

/-- Claim C3: a call to `_train_step` leaves `delta_P` and `delta_Q`
unchanged (and also `h` and the dimensions): the optimizer step touches
only the embedding parameters and its own accumulator slots. -/
theorem C3_train_step_preserves_perturbations (s : BPRMF) (bs : List Batch) :
    (train_step s bs).delta_P = s.delta_P ∧
    (train_step s bs).delta_Q = s.delta_Q ∧
    (train_step s bs).h = s.h ∧
    (train_step s bs).num_users = s.num_users ∧
    (train_step s bs).num_items = s.num_items ∧
    (train_step s bs).embedding_size = s.embedding_size := by
  induction bs generalizing s with
  | nil => exact ⟨rfl, rfl, rfl, rfl, rfl, rfl⟩
  | cons b bs ih => exact ih (trainBatchUpdate s b)

/-- Claim C4: the perturbation matrices always have the shapes of the
embedding matrices — the constructor establishes the shape invariant `WF`
(delta_P of shape (num_users, embedding_size) like embedding_P, delta_Q of
shape (num_items, embedding_size) like embedding_Q), and every operation
(`initialize_perturbations`, `_train_step`, `_adversarial_train_step`,
`execute_adversarial_attack`) preserves it. -/
theorem C4_shape_invariants :
    (∀ (nu ni : Nat) (P0 Q0 : Mat) (rp wp : String),
      IsShape P0 nu 64 → IsShape Q0 ni 64 → WF (mkBPRMF nu ni P0 Q0 rp wp)) ∧
    (∀ s : BPRMF, WF s → WF (initialize_perturbations s)) ∧
    (∀ (s : BPRMF) (bs : List Batch), WF s → WF (train_step s bs)) ∧
    (∀ (s : BPRMF) (bbs : List (Batch × Batch)) (epsilon : ℝ),
      WF s → WF (adversarial_train_step s bbs epsilon)) ∧
    (∀ (s : BPRMF) (ab : Batch) (epsilon : ℝ),
      WF s → WF (execute_adversarial_attack s ab epsilon)) ∧
    (∀ s : BPRMF, WF s →
      IsShape s.delta_P s.num_users s.embedding_size ∧
      IsShape s.delta_Q s.num_items s.embedding_size ∧
      s.delta_P.length = s.embedding_P.length ∧
      s.delta_Q.length = s.embedding_Q.length) :=
  ⟨fun _ _ _ _ rp wp hP hQ => WF_mkBPRMF rp wp hP hQ,
   fun _ hs => WF_initialize_perturbations hs,
   fun _ bs hs => WF_train_step bs hs,
   fun _ bbs epsilon hs => WF_adversarial_train_step bbs epsilon hs,
   fun _ ab epsilon hs => WF_execute_adversarial_attack ab epsilon hs,
   fun s hs => ⟨hs.2.2.1, hs.2.2.2.1, by rw [hs.2.2.1.1, hs.1.1],
     by rw [hs.2.2.2.1.1, hs.2.1.1]⟩⟩

/-- Witness for C4 at a concrete constructor call and a concrete state. -/
theorem C4_witness :
    (IsShape [List.replicate 64 (0 : ℝ)] 1 64 ∧
      IsShape [List.replicate 64 (0 : ℝ), List.replicate 64 (0 : ℝ)] 2 64 ∧ WF sOneP) ∧
    WF (mkBPRMF 1 2 [List.replicate 64 (0 : ℝ)]
      [List.replicate 64 (0 : ℝ), List.replicate 64 (0 : ℝ)] "../rec_result/"
      "../rec_weights/") ∧
    WF (initialize_perturbations sOneP) :=
  ⟨⟨by decide, by decide, by decide⟩,
   C4_shape_invariants.1 1 2 _ _ "../rec_result/" "../rec_weights/"
     (by decide) (by decide),
   C4_shape_invariants.2.1 sOneP (by decide)⟩

/-- Claim C5: entry `(u, i)` of the matrix `get_full_inference` returns
equals the score `get_inference` computes for the singleton inputs `[u]`
and `[i]` — both are the dot product of the perturbed user row `u` and the
perturbed item row `i`, because `h` is the all-ones column. -/
theorem C5_full_inference_matches_single (s : BPRMF) (hWF : WF s)
    (hh : s.h = List.replicate s.embedding_size [1]) (u i : Nat)
    (hu : u < s.num_users) (hi : i < s.num_items) :
    entry (get_full_inference s) u i = entry (get_inference s [[u]] [[i]]).1 0 0 := by
  have hPD : IsShape (matAdd s.embedding_P s.delta_P) s.num_users s.embedding_size :=
    IsShape_matAdd hWF.1 hWF.2.2.1
  have hQD : IsShape (matAdd s.embedding_Q s.delta_Q) s.num_items s.embedding_size :=
    IsShape_matAdd hWF.2.1 hWF.2.2.2.1
  have hu' : u < (matAdd s.embedding_P s.delta_P).length := by rw [hPD.1]; exact hu
  have hi' : i < (matAdd s.embedding_Q s.delta_Q).length := by rw [hQD.1]; exact hi
  have hpulen : ((matAdd s.embedding_P s.delta_P).getD u []).length = s.embedding_size :=
    hPD.2 _ (getD_mem_of_lt hu')
  have hqilen : ((matAdd s.embedding_Q s.delta_Q).getD i []).length = s.embedding_size :=
    hQD.2 _ (getD_mem_of_lt hi')
  have hQDcols : numCols (matAdd s.embedding_Q s.delta_Q) = s.embedding_size :=
    numCols_of_shape hQD (lt_of_le_of_lt (Nat.zero_le i) hi)
  match hd : s.embedding_size with
  | 0 =>
    rw [hd] at hQDcols hh
    have hL : get_full_inference s = (matAdd s.embedding_P s.delta_P).map (fun _ => []) := by
      rw [get_full_inference, matTranspose, hQDcols]
      simp [matmul, numCols]
    have hR : (get_inference s [[u]] [[i]]).1 =
        (List.zipWith hadamard
          [lookupRows (matAdd s.embedding_P s.delta_P) [u]]
          [lookupRows (matAdd s.embedding_Q s.delta_Q) [i]]).map (fun _ => []) := by
      rw [get_inference]
      rw [hh]
      simp [matmul, numCols]
    rw [entry, hL, getD_map_of_lt hu' _ []]
    rw [entry, hR, getD_map_of_lt (by simp) _ []]
    simp
  | d + 1 =>
    rw [hd] at hQDcols hh hpulen hqilen hPD hQD
    have htransN : numCols (matTranspose (matAdd s.embedding_Q s.delta_Q)) =
        (matAdd s.embedding_Q s.delta_Q).length := by
      rw [matTranspose, hQDcols]
      simp [numCols, colV, List.range_succ_eq_map]
    have hL := matmul_entry (A := matAdd s.embedding_P s.delta_P)
      (B := matTranspose (matAdd s.embedding_Q s.delta_Q)) (u := u) (j := i)
      hu' (by rw [htransN]; exact hi')
    rw [get_full_inference, hL,
      colV_transpose (c := d + 1) hQD.2 hQDcols hi']
    have hone : 0 < numCols s.h := by
      rw [hh]
      simp [numCols, List.replicate_succ]
    have hR := matmul_entry
      (A := List.zipWith hadamard
        [lookupRows (matAdd s.embedding_P s.delta_P) [u]]
        [lookupRows (matAdd s.embedding_Q s.delta_Q) [i]])
      (B := s.h) (u := 0) (j := 0) (by simp) hone
    have hgoalR : entry (get_inference s [[u]] [[i]]).1 0 0 =
        entry (matmul (List.zipWith hadamard
          [lookupRows (matAdd s.embedding_P s.delta_P) [u]]
          [lookupRows (matAdd s.embedding_Q s.delta_Q) [i]]) s.h) 0 0 := rfl
    rw [hgoalR, hR]
    have hcol : colV s.h 0 = List.replicate (d + 1) (1 : ℝ) := by
      rw [hh]
      simp [colV]
    have hlook : lookupRows (matAdd s.embedding_P s.delta_P) [u] =
        (matAdd s.embedding_P s.delta_P).getD u [] := rfl
    have hlook2 : lookupRows (matAdd s.embedding_Q s.delta_Q) [i] =
        (matAdd s.embedding_Q s.delta_Q).getD i [] := rfl
    simp only [List.zipWith_cons_cons, List.zipWith_nil_right, List.getD_cons_zero]
    rw [hlook, hlook2, hcol]
    have hlen : (hadamard ((matAdd s.embedding_P s.delta_P).getD u [])
        ((matAdd s.embedding_Q s.delta_Q).getD i [])).length ≤ d + 1 := by
      rw [hadamard, List.length_zipWith, hpulen, hqilen]
      simp
    have hsum : dot (hadamard ((matAdd s.embedding_P s.delta_P).getD u [])
        ((matAdd s.embedding_Q s.delta_Q).getD i []))
        (List.replicate (d + 1) (1 : ℝ)) =
        (hadamard ((matAdd s.embedding_P s.delta_P).getD u [])
          ((matAdd s.embedding_Q s.delta_Q).getD i [])).sum := by
      rw [dot, zipWith_mul_replicate_one _ _ hlen]
    rw [hsum]
    rfl

/-- Witness for C5 at a concrete state and concrete indices. -/
theorem C5_witness :
    (WF sOneP ∧ sOneP.h = List.replicate sOneP.embedding_size [1] ∧
      0 < sOneP.num_users ∧ 0 < sOneP.num_items) ∧
    entry (get_full_inference sOneP) 0 0 = entry (get_inference sOneP [[0]] [[0]]).1 0 0 :=
  ⟨⟨by decide, rfl, by decide, by decide⟩,
   C5_full_inference_matches_single sOneP (by decide) rfl 0 0 (by decide) (by decide)⟩

/-- Claim C6: each of HR, nDCG and AUC returned by the evaluator lies in
the closed interval [0, 1], for every state of the model, every test-pair
list and every K. -/
theorem C6_metrics_in_unit_interval (s : BPRMF) (testPairs : List (Nat × Nat))
    (K : Nat) :
    (0 ≤ (evaluate s testPairs K).1 ∧ (evaluate s testPairs K).1 ≤ 1) ∧
    (0 ≤ (evaluate s testPairs K).2.1 ∧ (evaluate s testPairs K).2.1 ≤ 1) ∧
    (0 ≤ (evaluate s testPairs K).2.2 ∧ (evaluate s testPairs K).2.2 ≤ 1) := by
  refine ⟨meanR_bounds ?_ ?_, meanR_bounds ?_ ?_, meanR_bounds ?_ ?_⟩ <;>
    intro x hx <;>
    obtain ⟨ut, _, rfl⟩ := List.mem_map.mp hx
  · exact (hrOf_bounds _ _).1
  · exact (hrOf_bounds _ _).2
  · exact (ndcgOf_bounds _ _).1
  · exact (ndcgOf_bounds _ _).2
  · exact (aucOf_bounds _ _).1
  · exact (aucOf_bounds _ _).2

/-- Claim C7, as stated, is false: at the all-zero tiny state both loss
gradients vanish (the clipped score differences are constant in the
parameters), so two consecutive epochs over the same batch record equal —
not strictly decreasing — losses. -/
theorem C7_counterexample :
    ¬ (∀ e, e + 1 < (epochLossList sZero [[bU], [bU]]).length →
      (epochLossList sZero [[bU], [bU]]).getD (e + 1) 0 <
        (epochLossList sZero [[bU], [bU]]).getD e 0) := by
  have hfix : epochLossList sZero [[bU], [bU]] =
      [batchLoss sZero bU, batchLoss sZero bU] := by
    simp [epochLossList, stepWithLastLoss, List.foldl, trainBatchUpdate_sZero_fixed]
  intro hmono
  have h01 := hmono 0 (by rw [hfix]; norm_num)
  rw [hfix] at h01
  simp at h01

/-- Claim C7 (amended): the training loop does not guarantee a strictly
decreasing loss across epochs; whenever a training batch fixes the state
(as at the all-zero state, where the gradients vanish), every epoch records
exactly the same BPR loss. -/
theorem C7_loss_constant_at_fixed_point (s : BPRMF) (b : Batch) (n : Nat)
    (hfix : trainBatchUpdate s b = s) :
    epochLossList s (List.replicate n [b]) = List.replicate n (batchLoss s b) := by
  induction n with
  | zero => simp [epochLossList]
  | succ n ih =>
    simp [List.replicate_succ, epochLossList, stepWithLastLoss, List.foldl, hfix, ih]

/-- Witness for C7 at the all-zero state. -/
theorem C7_witness :
    trainBatchUpdate sZero bU = sZero ∧
    epochLossList sZero (List.replicate 2 [bU]) =
      List.replicate 2 (batchLoss sZero bU) :=
  ⟨trainBatchUpdate_sZero_fixed,
   C7_loss_constant_at_fixed_point sZero bU 2 trainBatchUpdate_sZero_fixed⟩

/-- Claim C8, as stated, is false: the notebook's top-level sequence is not
exactly the spec's eight steps — after the adversarial training and its
evaluation, the notebook attacks the defended model and evaluates once
more. -/
theorem C8_counterexample : notebookTrace ≠ specTrace := by decide

/-- Claim C8 (amended): the notebook performs exactly the spec's linear
sequence load → construct → train → evaluate → perturb → evaluate →
adversarially train → evaluate, followed by one further perturb → evaluate
pair on the defended model; no other top-level model operations occur and
no step is out of order. -/
theorem C8_notebook_trace :
    notebookTrace = specTrace ++ [Step.attackModel, Step.evaluateModel] := by decide

/-- Claim C9: the two output directory paths passed to the constructor are
stored and never read from or written to — no operation of the notebook's
flow performs file I/O, so no files are persisted under them. -/
theorem C9_no_file_io :
    notebookFileWrites = [] ∧
    "../rec_result/" ∉ notebookFileWrites ∧
    "../rec_weights/" ∉ notebookFileWrites ∧
    (∀ (nu ni : Nat) (P0 Q0 : Mat),
      (mkBPRMF nu ni P0 Q0 "../rec_result/" "../rec_weights/").path_output_rec_result =
        "../rec_result/" ∧
      (mkBPRMF nu ni P0 Q0 "../rec_result/" "../rec_weights/").path_output_rec_weight =
        "../rec_weights/") :=
  ⟨rfl, by simp [notebookFileWrites, notebookTrace, stepFileWrites],
   by simp [notebookFileWrites, notebookTrace, stepFileWrites],
   fun _ _ _ _ => ⟨rfl, rfl⟩⟩

/-- Claim C10: no operation catches exceptions or recovers — an error
raised by the numeric-library call behind any step of the notebook's run
propagates unchanged to the top level. -/
theorem C10_error_propagation (oracle : Nat → Option String) (j : Nat) (e : String)
    (hj : j < notebookTrace.length) (hnone : ∀ i, i < j → oracle i = none)
    (hfail : oracle j = some e) : runTraceE oracle = Except.error e := by
  rw [runTraceE]
  have hsplit : notebookTrace.length = j + 1 + (notebookTrace.length - (j + 1)) := by
    omega
  rw [hsplit, List.range_add, List.foldl_append]
  rw [List.range_succ, List.foldl_append]
  rw [foldl_ok_of_none oracle j hnone]
  have hstep : (List.foldl (fun acc k => acc.bind (fun _ => libCall oracle k))
      (Except.ok ()) [j]) = Except.error e := by
    simp [libCall, hfail, Except.bind]
  rw [hstep]
  exact foldl_bind_error oracle e _

/-- A concrete fault oracle: the library call behind step 3 (the first
evaluation) raises. -/
def faultOracle : Nat → Option String :=
  fun k => if k = 3 then some "InvalidArgumentError" else none

/-- Witness for C10 with a fault injected at step 3. -/
theorem C10_witness :
    (3 < notebookTrace.length ∧ (∀ i, i < 3 → faultOracle i = none) ∧
      faultOracle 3 = some "InvalidArgumentError") ∧
    runTraceE faultOracle = Except.error "InvalidArgumentError" :=
  ⟨⟨by decide, by decide, by decide⟩,
   C10_error_propagation faultOracle 3 "InvalidArgumentError"
     (by decide) (by decide) (by decide)⟩

end RecSys
